import Mathlib

/-!
Shallow embedding of the winusb-installer privilege-split orchestration
subsystem (src/lib.rs, src/ipc.rs, src/runas.rs, src/winusb.rs), together
with theorems settling the frozen claims about it.

Modelling conventions:
* machine integers are `Nat` (or `Int` for `isize`), with explicit bounds
  where overflow or wire width matters;
* time is discrete, in milliseconds; arrival of worker messages is an
  explicit schedule `List (Nat × ClientMsg)` of (arrival time, message);
* fallible operations return `Except`/`Option`;
* side effects of the orchestrator (spawning, sends, progress callbacks,
  log lines) are reified as an explicit `Effect` list;
* loops are driven by an explicit fuel parameter; theorems give concrete
  sufficient fuel bounds, so running out of fuel never hides behaviour.
-/

namespace WUSB

/-! ## Data model (src/winusb.rs) -/

/-- `winusb::Device`: owned device information.  `u16` fields become `Nat`
(bounds tracked by `Device.WF`), `Option<NonZeroU8>`/`Option<NonZeroU64>`
become `Option Nat`. -/
structure Device where
  vid : Nat
  pid : Nat
  is_composite : Bool
  mi : Option Nat
  driver_version : Option Nat
  desc : String
  driver : Option String
  device_id : Option String
  hardware_id : Option String
  compatible_id : Option String
  upper_filter : Option String
  deriving DecidableEq, Repr

/-- `winusb::InstallConfig`: vendor name, driver directory, inf file name. -/
structure InstallConfig where
  vendor : String
  driver_path : String
  inf_name : String
  deriving DecidableEq, Repr

/-- `winusb::Window(isize)`: opaque native window handle. -/
abbrev Window : Type := Int

/-- Rust `Result<(), String>` used for per-device install outcomes. -/
abbrev InstallResult : Type := Except String Unit

instance {ε α : Type} [DecidableEq ε] [DecidableEq α] : DecidableEq (Except ε α)
  | .ok a, .ok b =>
    if h : a = b then isTrue (by rw [h]) else isFalse (fun hc => h (by cases hc; rfl))
  | .ok _, .error _ => isFalse (fun h => Except.noConfusion h)
  | .error _, .ok _ => isFalse (fun h => Except.noConfusion h)
  | .error a, .error b =>
    if h : a = b then isTrue (by rw [h]) else isFalse (fun hc => h (by cases hc; rfl))

/-- `Result::is_ok` on an install outcome. -/
def resultIsOk : InstallResult → Bool
  | .ok _ => true
  | .error _ => false

/-! ## Protocol schema (src/lib.rs, `ServerMsg` / `ClientMsg`) -/

/-- Messages sent by the orchestrator (Rust `ServerMsg`):
`Install(config, devices)`, `Logging { window }`, `Exit`. -/
inductive ServerMsg where
  | Install (config : InstallConfig) (devices : List Device)
  | Logging (window : Window)
  | Exit
  deriving DecidableEq

/-- Messages sent by the worker (Rust `ClientMsg`): `DeviceInstall(dev, result)`,
`Error(text)`, `InstallStarted`, `InstallDone`, `Heatbeat` (sic, source spelling). -/
inductive ClientMsg where
  | DeviceInstall (dev : Device) (result : InstallResult)
  | Error (err : String)
  | InstallStarted
  | InstallDone
  | Heatbeat
  deriving DecidableEq

/-- `Progress` events reported to the caller of `Server::install`. -/
inductive Progress where
  | Started
  | Device (dev : Device) (result : InstallResult)
  deriving DecidableEq

/-! ## Elevation launcher (src/runas.rs) -/

/-- `Command::quote_param` body: escape `\` to `\\` and `"` to `\"`
character by character. -/
def escapeChars : List Char → List Char
  | [] => []
  | c :: cs =>
    if c = '\\' then '\\' :: '\\' :: escapeChars cs
    else if c = '"' then '\\' :: '"' :: escapeChars cs
    else c :: escapeChars cs

/-- `Command::quote_param`: wrap in double quotes with internal backslashes
and quotes escaped. -/
def quote_param (s : String) : String :=
  ⟨'"' :: (escapeChars s.data ++ ['"'])⟩

/-- The per-argument check in `Command::params`:
`s.find(&[' ', '\t', '"'][..]).is_some()`. -/
def hasSpecial (s : String) : Bool :=
  s.data.any fun c => c = ' ' || c = '\t' || c = '"'

/-- One argument as emitted by `Command::params`: `""` for the empty
argument, verbatim when no space/tab/quote occurs, quoted otherwise. -/
def emit_param (s : String) : String :=
  if s = "" then "\"\""
  else if hasSpecial s then quote_param s
  else s

/-- `Command::params`: arguments joined with single spaces. -/
def params (args : List String) : String :=
  String.intercalate " " (args.map emit_param)

/-- Modelled from the spec: the "independent unquoting routine" of the
quoting invariant (spec §8); not part of the repository sources.  Inside a
quoted parameter a backslash escapes the next character and an unescaped
quote terminates it; an unquoted parameter denotes itself. -/
def parseQuoted : List Char → Option (List Char)
  | [] => none
  | c :: cs =>
    if c = '\\' then
      match cs with
      | [] => none
      | c2 :: cs2 => (parseQuoted cs2).map fun r => c2 :: r
    else if c = '"' then
      if cs = [] then some [] else none
    else (parseQuoted cs).map fun r => c :: r

/-- Modelled from the spec: unquoting of a whole emitted parameter (see
`parseQuoted`). -/
def unquote_param (s : String) : Option String :=
  match s.data with
  | '"' :: rest => (parseQuoted rest).map fun cs => ⟨cs⟩
  | _ => some s

/-- The claim's own wording of the verbatim condition ("no whitespace and
no quote characters"), for comparison with `emit_param` which only checks
space, tab and quote. -/
def spec_emit_param (s : String) : String :=
  if s = "" ∨ s.data.any (fun c => c.isWhitespace || c = '"') then quote_param s
  else s

/-- Process status as observable through `WaitForSingleObject`. -/
inductive ProcStatus where
  | running
  | exited
  deriving DecidableEq

/-- `Child::try_wait_raw(0)`: zero-timeout exit check; `some ()` when the
process has terminated, `none` on `WAIT_TIMEOUT`. -/
def try_wait_zero : ProcStatus → Option Unit
  | .exited => some ()
  | .running => none

/-- Result of one `Child::kill` call: the returned `io::Result<()>`, the
process status afterwards, and whether `TerminateProcess` was invoked. -/
structure KillOutcome where
  result : Except String Unit
  status : ProcStatus
  signaled : Bool
  deriving DecidableEq

/-- `Child::kill`: return success without signaling if the zero-timeout
wait reports the process already exited; otherwise `TerminateProcess`
(whose success is the environment parameter `termOk`). -/
def kill (st : ProcStatus) (termOk : Bool) : KillOutcome :=
  match try_wait_zero st with
  | some () => ⟨.ok (), .exited, false⟩
  | none =>
    if termOk then ⟨.ok (), .exited, true⟩
    else ⟨.error "Could not terminate process", .running, true⟩

/-! ## IPC connect retry (src/ipc.rs, `client_connect`) -/

/-- Outcome of one `client_open` attempt: success, `ERROR_PIPE_BUSY`, or
another OS error (carried as a code). -/
inductive OpenRes where
  | ok
  | busy
  | err (code : Nat)
  deriving DecidableEq

/-- Outcome of `client_connect`: connection (with the time it happened),
timeout, or an immediately fatal open error. -/
inductive ConnectRes where
  | connected (t : Nat)
  | timedOut
  | failed (code : Nat) (t : Nat)
  deriving DecidableEq

/-- The retry loop of `client_connect`: attempt `k` happens at time
`50 * (k + 1)` (the code sleeps 50 ms before every attempt); an attempt is
only made if its time is within the `tokio::time::timeout` deadline; `busy`
retries, any other error breaks out immediately. `budget` is fuel. -/
def connect_loop (openAt : Nat → OpenRes) (timeout : Nat) : Nat → Nat → ConnectRes
  | _, 0 => .timedOut
  | k, budget + 1 =>
    if timeout < 50 * (k + 1) then .timedOut
    else
      match openAt k with
      | .ok => .connected (50 * (k + 1))
      | .err c => .failed c (50 * (k + 1))
      | .busy => connect_loop openAt timeout (k + 1) budget

/-- `client_connect(pipe_name, timeout)` with the environment's open
results given by `openAt`. -/
def client_connect (timeout : Nat) (openAt : Nat → OpenRes) : ConnectRes :=
  connect_loop openAt timeout 0 (timeout / 50 + 1)

/-! ## Session orchestrator (src/lib.rs, `Server`) -/

/-- `pipe_name`: prefix the pipe id with the namespace prefix (the
`assert!` rejecting an already-prefixed id is outside the claims). -/
def pipe_name (pipe_id : String) : String :=
  "\\\\.\\pipe\\" ++ pipe_id

/-- `Server::DEFAULT_PIPE_ID`. -/
def DEFAULT_PIPE_ID : String := "winusb-driver-installer"

/-- `Server` state: configured pipe id, client executable path, window
visibility flag, and the stored child process handle (opaque). -/
structure Server where
  pipe_id : Option String
  client_executable : Option String
  show_child_window : Bool
  child : Option Unit
  deriving DecidableEq

/-- `Server::get_pipe_name`. -/
def Server.get_pipe_name (s : Server) : String :=
  pipe_name (s.pipe_id.getD DEFAULT_PIPE_ID)

/-- Observable actions of one `Server::install` run, in order. -/
inductive Effect where
  | logNoDevices
  | createListener (name : String)
  | killChild
  | spawnChild (name : String)
  | acceptConnect
  | send (m : ServerMsg)
  | logClientError (e : String)
  | progress (p : Progress)
  | sendExit (ok : Bool)
  | logExitSendFailed
  | logTally (installed : Nat) (total : Nat)
  deriving DecidableEq

/-- Errors `Server::install` can return, one per `io::Error` source the
claims distinguish.  `modelFuel` marks fuel exhaustion of the embedding
(never reached under the fuel bounds the theorems use). -/
inductive InstallError where
  | startTimeout
  | protocolViolation (m : ClientMsg)
  | heartbeatTimeout
  | installTimeout
  | modelFuel
  deriving DecidableEq

/-- Result of `Server::wait_for_start` under its 30 s timeout wrapper:
success (with the receive time and unconsumed schedule), a protocol
violation, or timeout. -/
inductive StartRes where
  | started (t : Nat) (rest : List (Nat × ClientMsg))
  | protocolViolation (m : ClientMsg) (t : Nat)
  | timeout
  deriving DecidableEq

/-- `Server::wait_for_start` wrapped in `tokio::time::timeout(deadline)`:
scan incoming messages in arrival order; a message past the deadline is
never seen (the timeout fires first), `Heatbeat` is skipped, `Error` is
logged and skipped, `InstallStarted` succeeds, anything else is a protocol
violation; an exhausted schedule leaves the loop waiting until the
timeout fires. -/
def wait_for_start (deadline : Nat) : List (Nat × ClientMsg) → StartRes × List Effect
  | [] => (.timeout, [])
  | (t, m) :: rest =>
    if deadline < t then (.timeout, [])
    else
      match m with
      | .Heatbeat => wait_for_start deadline rest
      | .Error e =>
        let r := wait_for_start deadline rest
        (r.1, .logClientError e :: r.2)
      | .InstallStarted => (.started t rest, [])
      | .DeviceInstall d res => (.protocolViolation (.DeviceInstall d res) t, [])
      | .InstallDone => (.protocolViolation .InstallDone t, [])

/-- Result of `Server::wait_installation`: `done installed t` for a normal
`InstallDone` at time `t`, `hbTimeout t` for the heartbeat timeout error
raised at time `t`, `outOfFuel` for fuel exhaustion of the model. -/
inductive WaitRes where
  | done (installed : Nat) (t : Nat)
  | hbTimeout (t : Nat)
  | outOfFuel
  deriving DecidableEq

/-- `Server::wait_installation`: at each iteration first check
`last_heatbeat.elapsed() > heartbeat_timeout` (fatal heartbeat timeout),
then poll for the next message with a 100 ms receive timeout.  A message
whose arrival time falls inside the poll window is received at
`max now t`; `Heatbeat`/`InstallStarted` reset the heartbeat instant,
`InstallDone` ends the loop returning the installed count, `Error` is
logged, `DeviceInstall` bumps the installed count on `Ok` and emits a
`Progress::Device` event. -/
def wait_installation (hb : Nat) :
    Nat → Nat → Nat → Nat → List (Nat × ClientMsg) → WaitRes × List Effect
  | 0, _, _, _, _ => (.outOfFuel, [])
  | fuel + 1, now, lastHB, installed, evs =>
    if lastHB + hb < now then (.hbTimeout now, [])
    else
      match evs with
      | [] => wait_installation hb fuel (now + 100) lastHB installed []
      | (t, m) :: rest =>
        if t ≤ now + 100 then
          match m with
          | .Heatbeat => wait_installation hb fuel (max now t) (max now t) installed rest
          | .InstallStarted => wait_installation hb fuel (max now t) (max now t) installed rest
          | .InstallDone => (.done installed (max now t), [])
          | .Error e =>
            let r := wait_installation hb fuel (max now t) lastHB installed rest
            (r.1, .logClientError e :: r.2)
          | .DeviceInstall d res =>
            let r := wait_installation hb fuel (max now t) lastHB
              (installed + if resultIsOk res then 1 else 0) rest
            (r.1, .progress (.Device d res) :: r.2)
        else wait_installation hb fuel (now + 100) lastHB installed ((t, m) :: rest)

/-- The effects of `Server::install` up to the install-request send:
listener creation, child spawn (killing a previous child first), accepting
the connection, the optional `Logging` send, and the `Install` send. -/
def setupEffects (pn : String) (hadChild : Bool) (logger : Option Window)
    (config : InstallConfig) (devices : List Device) : List Effect :=
  [.createListener pn]
    ++ (if hadChild then [.killChild] else [])
    ++ [.spawnChild pn, .acceptConnect]
    ++ (match logger with
        | some w => [.send (.Logging w)]
        | none => [])
    ++ [.send (.Install config devices)]

/-- `Server::install`.  Parameters beyond the Rust arguments resolve the
environment: `logger` is the window handle when `LogReceiver::new`
succeeds, `exitSendOk` tells whether the final `ServerMsg::Exit` send
succeeds, `fuel` drives the model's loops, `schedule` is the worker's
message sequence with arrival times counted from the moment the install
request has been sent.  Returns the Rust result, the effect trace and the
updated server state.  Constants as in the source: 30 s start timeout,
6 min install timeout, 5 s heartbeat timeout, 100 ms poll. -/
def Server.install (self : Server) (config : InstallConfig) (devices : List Device)
    (logger : Option Window) (exitSendOk : Bool) (fuel : Nat)
    (schedule : List (Nat × ClientMsg)) :
    Except InstallError Unit × List Effect × Server :=
  if devices.length = 0 then
    (.ok (), [.logNoDevices], self)
  else
    let setup : List Effect :=
      setupEffects self.get_pipe_name self.child.isSome logger config devices
    let self' : Server := { self with child := some () }
    match wait_for_start 30000 schedule with
    | (.timeout, eff) => (.error .startTimeout, setup ++ eff, self')
    | (.protocolViolation m _, eff) => (.error (.protocolViolation m), setup ++ eff, self')
    | (.started tStart rest, eff) =>
      let pre := setup ++ eff ++ [.progress .Started]
      match wait_installation 5000 fuel tStart tStart 0 rest with
      | (.outOfFuel, weff) => (.error .modelFuel, pre ++ weff, self')
      | (.hbTimeout te, weff) =>
        if te ≤ tStart + 360000 then
          (.error .heartbeatTimeout, pre ++ weff, self')
        else
          (.error .installTimeout, pre ++ weff ++ [.sendExit exitSendOk], self')
      | (.done installed tDone, weff) =>
        if tDone ≤ tStart + 360000 then
          (.ok (),
            pre ++ weff
              ++ (if exitSendOk then [.sendExit true]
                  else [.sendExit false, .logExitSendFailed])
              ++ [.logTally installed devices.length],
            self')
        else
          (.error .installTimeout, pre ++ weff ++ [.sendExit exitSendOk], self')

/-! ## Wire codec (src/ipc.rs: length-delimited framing + bincode serde)

The channel layers a `LengthDelimitedCodec` (4-byte length prefix) under a
bincode codec.  Bincode's legacy format encodes little-endian fixed-width
integers, a `u32` enum discriminant, a one-byte `Option` tag, and
`u64`-length-prefixed strings and vectors, fields in declared order.  The
wire is modelled as `List Nat` of byte values; string payloads are
abstracted to one wire token per character (UTF-8 byte-level detail of the
external serde library is out of scope). -/

/-- Little-endian fixed-width natural: `w` bytes. -/
def encNat : Nat → Nat → List Nat
  | 0, _ => []
  | w + 1, n => n % 256 :: encNat w (n / 256)

/-- Decode a little-endian fixed-width natural, returning the rest. -/
def decNat : Nat → List Nat → Option (Nat × List Nat)
  | 0, bs => some (0, bs)
  | _ + 1, [] => none
  | w + 1, b :: bs => (decNat w bs).map fun p => (b + 256 * p.1, p.2)

/-- `isize` window handle as 8-byte two's-complement little-endian. -/
def encInt (i : Int) : List Nat :=
  encNat 8 (i % 2 ^ 64).toNat

/-- Decode an 8-byte two's-complement little-endian integer. -/
def decInt (bs : List Nat) : Option (Int × List Nat) :=
  (decNat 8 bs).map fun p =>
    (if p.1 < 2 ^ 63 then (p.1 : Int) else (p.1 : Int) - 2 ^ 64, p.2)

/-- Bincode `bool`: one byte. -/
def encBool (b : Bool) : List Nat :=
  [if b then 1 else 0]

/-- Decode one `bool` byte (strict: only 0 or 1). -/
def decBool : List Nat → Option (Bool × List Nat)
  | 0 :: bs => some (false, bs)
  | 1 :: bs => some (true, bs)
  | _ => none

/-- Bincode `Option<T>`: tag byte 0 (`None`) or 1 (`Some`) then payload. -/
def encOpt (f : α → List Nat) : Option α → List Nat
  | none => [0]
  | some a => 1 :: f a

/-- Decode a bincode `Option<T>`. -/
def decOpt (g : List Nat → Option (α × List Nat)) : List Nat → Option (Option α × List Nat)
  | 0 :: bs => some (none, bs)
  | 1 :: bs => (g bs).map fun p => (some p.1, p.2)
  | _ => none

/-- Take exactly `n` wire tokens. -/
def decTokens (n : Nat) (bs : List Nat) : Option (List Nat × List Nat) :=
  if n ≤ bs.length then some (bs.take n, bs.drop n) else none

/-- Bincode `String`: `u64` length then the characters. -/
def encString (s : String) : List Nat :=
  encNat 8 s.length ++ s.data.map Char.toNat

/-- Decode a bincode `String`. -/
def decString (bs : List Nat) : Option (String × List Nat) := do
  let (n, bs) ← decNat 8 bs
  let (ts, bs) ← decTokens n bs
  return (⟨ts.map Char.ofNat⟩, bs)

/-- Bincode `Vec<T>`: `u64` count then the elements. -/
def encList (f : α → List Nat) (xs : List α) : List Nat :=
  encNat 8 xs.length ++ xs.flatMap f

/-- Decode `n` consecutive elements. -/
def decMany (g : List Nat → Option (α × List Nat)) : Nat → List Nat → Option (List α × List Nat)
  | 0, bs => some ([], bs)
  | n + 1, bs => do
    let (a, bs) ← g bs
    let (as, bs) ← decMany g n bs
    return (a :: as, bs)

/-- Decode a bincode `Vec<T>`. -/
def decList (g : List Nat → Option (α × List Nat)) (bs : List Nat) :
    Option (List α × List Nat) := do
  let (n, bs) ← decNat 8 bs
  decMany g n bs

/-- Bincode `Result<(), String>`: `u32` discriminant, `Err` carries the text. -/
def encResult : InstallResult → List Nat
  | .ok _ => encNat 4 0
  | .error e => encNat 4 1 ++ encString e

/-- Decode a bincode `Result<(), String>`. -/
def decResult (bs : List Nat) : Option (InstallResult × List Nat) := do
  let (d, bs) ← decNat 4 bs
  match d with
  | 0 => return (.ok (), bs)
  | 1 => do
    let (e, bs) ← decString bs
    return (.error e, bs)
  | _ => none

/-- `Device` fields in declared order. -/
def encDevice (d : Device) : List Nat :=
  encNat 2 d.vid ++ encNat 2 d.pid ++ encBool d.is_composite
    ++ encOpt (encNat 1) d.mi ++ encOpt (encNat 8) d.driver_version
    ++ encString d.desc ++ encOpt encString d.driver
    ++ encOpt encString d.device_id ++ encOpt encString d.hardware_id
    ++ encOpt encString d.compatible_id ++ encOpt encString d.upper_filter

/-- Decode a `Device`. -/
def decDevice (bs : List Nat) : Option (Device × List Nat) := do
  let (vid, bs) ← decNat 2 bs
  let (pid, bs) ← decNat 2 bs
  let (is_composite, bs) ← decBool bs
  let (mi, bs) ← decOpt (decNat 1) bs
  let (driver_version, bs) ← decOpt (decNat 8) bs
  let (desc, bs) ← decString bs
  let (driver, bs) ← decOpt decString bs
  let (device_id, bs) ← decOpt decString bs
  let (hardware_id, bs) ← decOpt decString bs
  let (compatible_id, bs) ← decOpt decString bs
  let (upper_filter, bs) ← decOpt decString bs
  return (⟨vid, pid, is_composite, mi, driver_version, desc, driver,
    device_id, hardware_id, compatible_id, upper_filter⟩, bs)

/-- `InstallConfig` fields in declared order. -/
def encConfig (c : InstallConfig) : List Nat :=
  encString c.vendor ++ encString c.driver_path ++ encString c.inf_name

/-- Decode an `InstallConfig`. -/
def decConfig (bs : List Nat) : Option (InstallConfig × List Nat) := do
  let (vendor, bs) ← decString bs
  let (driver_path, bs) ← decString bs
  let (inf_name, bs) ← decString bs
  return (⟨vendor, driver_path, inf_name⟩, bs)

/-- `ServerMsg` with its `u32` variant discriminant. -/
def encServerMsg : ServerMsg → List Nat
  | .Install config devices => encNat 4 0 ++ encConfig config ++ encList encDevice devices
  | .Logging w => encNat 4 1 ++ encInt w
  | .Exit => encNat 4 2

/-- Decode a `ServerMsg`. -/
def decServerMsg (bs : List Nat) : Option (ServerMsg × List Nat) := do
  let (d, bs) ← decNat 4 bs
  match d with
  | 0 => do
    let (config, bs) ← decConfig bs
    let (devices, bs) ← decList decDevice bs
    return (.Install config devices, bs)
  | 1 => do
    let (w, bs) ← decInt bs
    return (.Logging w, bs)
  | 2 => return (.Exit, bs)
  | _ => none

/-- `ClientMsg` with its `u32` variant discriminant. -/
def encClientMsg : ClientMsg → List Nat
  | .DeviceInstall dev res => encNat 4 0 ++ encDevice dev ++ encResult res
  | .Error e => encNat 4 1 ++ encString e
  | .InstallStarted => encNat 4 2
  | .InstallDone => encNat 4 3
  | .Heatbeat => encNat 4 4

/-- Decode a `ClientMsg`. -/
def decClientMsg (bs : List Nat) : Option (ClientMsg × List Nat) := do
  let (d, bs) ← decNat 4 bs
  match d with
  | 0 => do
    let (dev, bs) ← decDevice bs
    let (res, bs) ← decResult bs
    return (.DeviceInstall dev res, bs)
  | 1 => do
    let (e, bs) ← decString bs
    return (.Error e, bs)
  | 2 => return (.InstallStarted, bs)
  | 3 => return (.InstallDone, bs)
  | 4 => return (.Heatbeat, bs)
  | _ => none

/-- `LengthDelimitedCodec` framing: 4-byte big-endian length prefix. -/
def encFrame (payload : List Nat) : List Nat :=
  (encNat 4 payload.length).reverse ++ payload

/-- Decode one frame: read the 4-byte big-endian length, take the payload. -/
def decFrame : List Nat → Option (List Nat × List Nat)
  | b3 :: b2 :: b1 :: b0 :: rest =>
    decTokens (b0 + 256 * (b1 + 256 * (b2 + 256 * b3))) rest
  | _ => none

/-- Encode one `ServerMsg` as a complete frame. -/
def encodeServerFrame (m : ServerMsg) : List Nat :=
  encFrame (encServerMsg m)

/-- Decode one complete `ServerMsg` frame (strict: the frame and the
payload are consumed exactly). -/
def decodeServerFrame (bs : List Nat) : Option ServerMsg :=
  match decFrame bs with
  | some (payload, []) =>
    match decServerMsg payload with
    | some (m, []) => some m
    | _ => none
  | _ => none

/-- Encode one `ClientMsg` as a complete frame. -/
def encodeClientFrame (m : ClientMsg) : List Nat :=
  encFrame (encClientMsg m)

/-- Decode one complete `ClientMsg` frame. -/
def decodeClientFrame (bs : List Nat) : Option ClientMsg :=
  match decFrame bs with
  | some (payload, []) =>
    match decClientMsg payload with
    | some (m, []) => some m
    | _ => none
  | _ => none

/-- Wire wellformedness of a string: its `u64` length prefix must fit. -/
def WFStr (s : String) : Prop := s.length < 2 ^ 64

/-- Wire wellformedness of a `Device`: the Rust field types' ranges. -/
def Device.WF (d : Device) : Prop :=
  d.vid < 2 ^ 16 ∧ d.pid < 2 ^ 16
    ∧ (∀ v ∈ d.mi, v < 2 ^ 8) ∧ (∀ v ∈ d.driver_version, v < 2 ^ 64)
    ∧ WFStr d.desc ∧ (∀ s ∈ d.driver, WFStr s) ∧ (∀ s ∈ d.device_id, WFStr s)
    ∧ (∀ s ∈ d.hardware_id, WFStr s) ∧ (∀ s ∈ d.compatible_id, WFStr s)
    ∧ (∀ s ∈ d.upper_filter, WFStr s)

/-- Wire wellformedness of an `InstallConfig`. -/
def InstallConfig.WF (c : InstallConfig) : Prop :=
  WFStr c.vendor ∧ WFStr c.driver_path ∧ WFStr c.inf_name

/-- Wire wellformedness of an `InstallResult`. -/
def resultWF : InstallResult → Prop
  | .ok _ => True
  | .error e => WFStr e

/-- Wire wellformedness of a `ServerMsg` value. -/
def ServerMsg.WF : ServerMsg → Prop
  | .Install config devices =>
    config.WF ∧ devices.length < 2 ^ 64 ∧ ∀ d ∈ devices, d.WF
  | .Logging w => -(2 ^ 63) ≤ w ∧ w < 2 ^ 63
  | .Exit => True

/-- Wire wellformedness of a `ClientMsg` value. -/
def ClientMsg.WF : ClientMsg → Prop
  | .DeviceInstall dev res => dev.WF ∧ resultWF res
  | .Error e => WFStr e
  | _ => True

instance {α : Type} (p : α → Prop) [DecidablePred p] :
    ∀ o : Option α, Decidable (∀ v ∈ o, p v)
  | none => isTrue (by simp)
  | some a => decidable_of_iff (p a) (by simp)

instance (s : String) : Decidable (WFStr s) :=
  inferInstanceAs (Decidable (_ < _))

instance (d : Device) : Decidable d.WF := by
  unfold Device.WF
  infer_instance

instance (c : InstallConfig) : Decidable c.WF := by
  unfold InstallConfig.WF
  infer_instance

instance : ∀ r : InstallResult, Decidable (resultWF r)
  | .ok _ => isTrue trivial
  | .error e => inferInstanceAs (Decidable (WFStr e))

instance : ∀ m : ServerMsg, Decidable m.WF
  | .Install config devices =>
    inferInstanceAs (Decidable (config.WF ∧ devices.length < 2 ^ 64 ∧ ∀ d ∈ devices, d.WF))
  | .Logging _ => inferInstanceAs (Decidable (_ ∧ _))
  | .Exit => isTrue trivial

instance : ∀ m : ClientMsg, Decidable m.WF
  | .DeviceInstall dev res => inferInstanceAs (Decidable (dev.WF ∧ resultWF res))
  | .Error e => inferInstanceAs (Decidable (WFStr e))
  | .InstallStarted => isTrue trivial
  | .InstallDone => isTrue trivial
  | .Heatbeat => isTrue trivial

/-! ## Sample values used by witnesses and counterexamples -/

/-- A concrete device. -/
def dev0 : Device :=
  ⟨0x1209, 1, false, none, none, "dfu", some "winusb", none, none, none, none⟩

/-- A concrete install configuration. -/
def cfg0 : InstallConfig :=
  ⟨"my-vendor", "C:\\usb_driver", "MyWinUSB.inf"⟩

/-- A freshly constructed `Server` (`Server::new`). -/
def srv0 : Server := ⟨none, none, false, none⟩

/-- A schedule that starts the session and then falls silent: the worker
acknowledges at once and never sends again. -/
def silentSchedule : List (Nat × ClientMsg) := [(0, .InstallStarted)]

/-- A second concrete device, distinct from `dev0`. -/
def dev1 : Device :=
  ⟨0x0483, 0xdf11, true, some 1, none, "stm32 bootloader", none,
    some "USB\\VID_0483", none, none, none⟩

/-- The messages of the end-to-end scenario: acknowledge, one success, one
failure, then completion. -/
def twoDeviceSchedule : List (Nat × ClientMsg) :=
  [(0, .InstallStarted), (100, .DeviceInstall dev0 (.ok ())),
   (200, .DeviceInstall dev1 (.error "x")), (300, .InstallDone)]

/-- Messages that do not reset the heartbeat deadline in
`wait_installation`: `DeviceInstall` and `Error`. -/
def nonResetting : ClientMsg → Bool
  | .DeviceInstall _ _ => true
  | .Error _ => true
  | _ => false

/-- Messages `wait_for_start` skips over: `Heatbeat` and `Error`. -/
def skippable : ClientMsg → Bool
  | .Heatbeat => true
  | .Error _ => true
  | _ => false

/-- The effect an incoming message leaves in the start handshake: `Error`
is logged, everything else leaves no trace. -/
def startEffects (evs : List (Nat × ClientMsg)) : List Effect :=
  evs.filterMap fun e =>
    match e.2 with
    | .Error s => some (.logClientError s)
    | _ => none

/-- Is this effect a successful-device progress event? -/
def isOkDeviceProg : Effect → Bool
  | .progress (.Device _ (.ok _)) => true
  | _ => false

/-- Number of `Progress::Device` events with an `Ok` outcome in a trace:
the observable count of successfully installed devices. -/
def okProgCount (eff : List Effect) : Nat :=
  eff.countP isOkDeviceProg

/-! ## Lemmas about the quoting functions -/

lemma parseQuoted_escapeChars (cs : List Char) :
    parseQuoted (escapeChars cs ++ ['"']) = some cs := by
  induction cs with
  | nil => rfl
  | cons c cs ih =>
    by_cases hb : c = '\\'
    · subst hb
      simp [escapeChars, parseQuoted, ih]
    · by_cases hq : c = '"'
      · subst hq
        simp [escapeChars, parseQuoted, hb, ih]
      · simp only [escapeChars, if_neg hb, if_neg hq, List.cons_append]
        rw [parseQuoted.eq_def]
        simp [hb, hq, ih]

lemma unquote_quote (s : String) : unquote_param (quote_param s) = some s := by
  obtain ⟨l⟩ := s
  show unquote_param ⟨'"' :: (escapeChars l ++ ['"'])⟩ = some ⟨l⟩
  simp [unquote_param, parseQuoted_escapeChars]

lemma hasSpecial_no_quote {s : String} (h : hasSpecial s = false) : '"' ∉ s.data := by
  intro hmem
  have := List.any_eq_false.mp h _ hmem
  simp at this

/-- Round-trip of the emitted parameter for every argument string. -/
lemma unquote_emit (s : String) : unquote_param (emit_param s) = some s := by
  by_cases h0 : s = ""
  · subst h0; rfl
  · by_cases hs : hasSpecial s
    · simp only [emit_param, if_neg h0, if_pos hs]
      exact unquote_quote s
    · simp only [emit_param, if_neg h0, if_neg hs]
      have hs' : hasSpecial s = false := by simpa using hs
      obtain ⟨l⟩ := s
      match l, h0 with
      | c :: rest, _ =>
        have hq : c ≠ '"' := by
          intro hc
          exact hasSpecial_no_quote hs' (by rw [← hc]; exact List.mem_cons_self c rest)
        show unquote_param ⟨c :: rest⟩ = some ⟨c :: rest⟩
        simp [unquote_param, hq]

/-! ## Claim C4 (corrected) -/

/-- C4 counterexample: the claim says an argument containing whitespace is
wrapped in quotes, but `Command::params` only checks for space, tab and
quote: a string containing a newline (whitespace, per the claim's wording
mirrored by `spec_emit_param`) is emitted verbatim, unquoted. -/
theorem c4_counterexample :
    ("a\nb").data.any (fun c => c.isWhitespace) = true
      ∧ emit_param "a\nb" = "a\nb"
      ∧ spec_emit_param "a\nb" = "\"a\nb\""
      ∧ spec_emit_param "a\nb" ≠ emit_param "a\nb" := by
  refine ⟨by decide, by decide, by decide, by decide⟩

/-- C4 (amended): the parameter builder emits an argument verbatim when it
is non-empty and contains no space, tab, or double-quote character (other
whitespace such as newline is also emitted verbatim); any argument that is
empty or contains space/tab/quote is wrapped in double quotes with internal
backslashes and quotes escaped; the independent unquoting routine parses
every produced parameter back to the original string, and the empty string
quotes to an empty quoted pair. -/
theorem c4_param_quoting (s sq r : String)
    (h1 : s ≠ "") (h2 : hasSpecial s = false)
    (h3 : sq = "" ∨ hasSpecial sq = true) :
    emit_param s = s
      ∧ emit_param sq = quote_param sq
      ∧ unquote_param (emit_param r) = some r
      ∧ emit_param "" = "\"\"" := by
  refine ⟨?_, ?_, unquote_emit r, by decide⟩
  · simp [emit_param, h1, h2]
  · rcases h3 with h3 | h3
    · subst h3; decide
    · by_cases h0 : sq = ""
      · subst h0; decide
      · simp [emit_param, h0, h3]

/-- C4 witness: concrete instances of the three hypothesis groups. -/
theorem c4_param_quoting_witness :
    emit_param "abc" = "abc"
      ∧ emit_param "a b" = quote_param "a b"
      ∧ unquote_param (emit_param "a \"b\\ c") = some "a \"b\\ c"
      ∧ emit_param "" = "\"\"" :=
  c4_param_quoting "abc" "a b" "a \"b\\ c" (by decide) (by decide) (Or.inr (by decide))

/-! ## Claim C8 (confirmed) -/

/-- C8: `kill` first checks exit status with a zero timeout; on an
already-exited process it returns success without signaling; killing twice
(after a successful first kill) and killing after natural exit both return
success; on a still-running process it signals termination and returns
success or a termination error according to the outcome of
`TerminateProcess`. -/
theorem c8_kill_idempotent (termOk next : Bool) :
    kill .exited termOk = ⟨.ok (), .exited, false⟩
      ∧ (kill (kill .running true).status next).result = .ok ()
      ∧ (kill (kill .running true).status next).signaled = false
      ∧ kill (kill .exited termOk).status next = ⟨.ok (), .exited, false⟩
      ∧ kill .running true = ⟨.ok (), .exited, true⟩
      ∧ kill .running false = ⟨.error "Could not terminate process", .running, true⟩ := by
  cases termOk <;> cases next <;> exact ⟨rfl, rfl, rfl, rfl, rfl, rfl⟩

/-! ## Lemmas about `client_connect` -/

lemma connect_loop_all_busy (openAt : Nat → OpenRes) (timeout : Nat)
    (h : ∀ j, openAt j = .busy) :
    ∀ budget k, connect_loop openAt timeout k budget = .timedOut := by
  intro budget
  induction budget with
  | zero => intro k; rfl
  | succ b ih =>
    intro k
    rw [connect_loop]
    split
    · rfl
    · rw [h k]
      exact ih (k + 1)

lemma connect_loop_skip_busy (openAt : Nat → OpenRes) (timeout : Nat) :
    ∀ j i budget, (∀ l, i ≤ l → l < i + j → openAt l = .busy) →
      50 * (i + j) ≤ timeout →
      connect_loop openAt timeout i (budget + j) = connect_loop openAt timeout (i + j) budget := by
  intro j
  induction j with
  | zero => intro i budget _ _; rfl
  | succ j ih =>
    intro i budget h hto
    show connect_loop openAt timeout i (budget + j + 1) = _
    rw [connect_loop]
    have hi : ¬ timeout < 50 * (i + 1) := by omega
    rw [if_neg hi, h i (le_refl i) (by omega)]
    rw [ih (i + 1) budget (fun l hl1 hl2 => h l (by omega) (by omega)) (by omega)]
    have harg : i + 1 + j = i + (j + 1) := by omega
    rw [harg]

lemma client_connect_reach (openAt : Nat → OpenRes) (timeout k : Nat)
    (hbusy : ∀ j, j < k → openAt j = .busy) (hk : 50 * (k + 1) ≤ timeout) :
    ∃ b, client_connect timeout openAt = connect_loop openAt timeout k (b + 1) := by
  have hkdiv : k + 1 ≤ timeout / 50 := (Nat.le_div_iff_mul_le (by norm_num)).mpr (by omega)
  refine ⟨timeout / 50 - k, ?_⟩
  show connect_loop openAt timeout 0 (timeout / 50 + 1) = _
  have hsplit : timeout / 50 + 1 = (timeout / 50 - k + 1) + k := by omega
  rw [hsplit,
    connect_loop_skip_busy openAt timeout k 0 (timeout / 50 - k + 1)
      (fun l _ hl => hbusy l (by omega)) (by omega),
    Nat.zero_add]

/-! ## Claim C6 (confirmed) -/

/-- C6: with every open attempt reporting "all pipe instances busy" the
client retries every 50 ms until the timeout elapses and then fails with a
timeout error; the first open failure with a different error is returned
immediately, with no further attempt; a successful open within the timeout
yields the connected channel.  Attempt `k` happens at time `50*(k+1)`
(the loop sleeps before each attempt), so consecutive attempts are exactly
50 ms apart. -/
theorem c6_connect_retry (timeoutA timeoutB timeoutC kB kC cB : Nat)
    (openA openB openC : Nat → OpenRes)
    (hA : ∀ j, openA j = .busy)
    (hB1 : ∀ j, j < kB → openB j = .busy) (hB2 : openB kB = .err cB)
    (hB3 : 50 * (kB + 1) ≤ timeoutB)
    (hC1 : ∀ j, j < kC → openC j = .busy) (hC2 : openC kC = .ok)
    (hC3 : 50 * (kC + 1) ≤ timeoutC) :
    client_connect timeoutA openA = .timedOut
      ∧ client_connect timeoutB openB = .failed cB (50 * (kB + 1))
      ∧ client_connect timeoutC openC = .connected (50 * (kC + 1)) := by
  refine ⟨connect_loop_all_busy openA timeoutA hA _ 0, ?_, ?_⟩
  · obtain ⟨b, hb⟩ := client_connect_reach openB timeoutB kB hB1 hB3
    rw [hb, connect_loop, if_neg (by omega), hB2]
  · obtain ⟨b, hb⟩ := client_connect_reach openC timeoutC kC hC1 hC3
    rw [hb, connect_loop, if_neg (by omega), hC2]

/-- C6 witness: a pipe busy forever times out; an endpoint failing with OS
error 5 on the first attempt fails at 50 ms; an endpoint busy twice then
free connects at 150 ms. -/
theorem c6_connect_retry_witness :
    client_connect 200 (fun _ => .busy) = .timedOut
      ∧ client_connect 100 (fun k => if k = 0 then .err 5 else .busy) = .failed 5 50
      ∧ client_connect 1000 (fun k => if k < 2 then .busy else .ok) = .connected 150 := by
  have h := c6_connect_retry 200 100 1000 0 2 5
    (fun _ => .busy) (fun k => if k = 0 then .err 5 else .busy)
    (fun k => if k < 2 then .busy else .ok)
    (fun _ => rfl)
    (fun j hj => absurd hj (Nat.not_lt_zero j)) rfl (by omega)
    (fun j hj => by interval_cases j <;> rfl) rfl (by omega)
  exact ⟨h.1, h.2.1, h.2.2⟩

/-! ## Lemmas about `wait_installation` -/

lemma wait_installation_zero (hb now lastHB installed : Nat) (evs : List (Nat × ClientMsg)) :
    wait_installation hb 0 now lastHB installed evs = (.outOfFuel, []) := rfl

lemma wait_installation_succ (hb fuel now lastHB installed : Nat)
    (evs : List (Nat × ClientMsg)) :
    wait_installation hb (fuel + 1) now lastHB installed evs =
      if lastHB + hb < now then (.hbTimeout now, [])
      else
        match evs with
        | [] => wait_installation hb fuel (now + 100) lastHB installed []
        | (t, m) :: rest =>
          if t ≤ now + 100 then
            match m with
            | .Heatbeat => wait_installation hb fuel (max now t) (max now t) installed rest
            | .InstallStarted => wait_installation hb fuel (max now t) (max now t) installed rest
            | .InstallDone => (.done installed (max now t), [])
            | .Error e =>
              let r := wait_installation hb fuel (max now t) lastHB installed rest
              (r.1, .logClientError e :: r.2)
            | .DeviceInstall d res =>
              let r := wait_installation hb fuel (max now t) lastHB
                (installed + if resultIsOk res then 1 else 0) rest
              (r.1, .progress (.Device d res) :: r.2)
          else wait_installation hb fuel (now + 100) lastHB installed ((t, m) :: rest) := rfl

/-- One step of the receive loop on an empty queue: check the heartbeat
deadline, then let the 100 ms receive timeout elapse. -/
lemma wait_step_nil (hb fuel now lastHB installed : Nat) :
    wait_installation hb (fuel + 1) now lastHB installed [] =
      if lastHB + hb < now then (.hbTimeout now, [])
      else wait_installation hb fuel (now + 100) lastHB installed [] := rfl

/-- One step on a pending `Heatbeat`: if received inside the poll window it
resets the heartbeat instant to the receive time. -/
lemma wait_step_heartbeat (hb fuel now lastHB installed t : Nat)
    (rest : List (Nat × ClientMsg)) :
    wait_installation hb (fuel + 1) now lastHB installed ((t, .Heatbeat) :: rest) =
      if lastHB + hb < now then (.hbTimeout now, [])
      else if t ≤ now + 100 then
        wait_installation hb fuel (max now t) (max now t) installed rest
      else wait_installation hb fuel (now + 100) lastHB installed ((t, .Heatbeat) :: rest) := rfl

/-- One step on a pending `InstallStarted`: also resets the heartbeat
instant. -/
lemma wait_step_started (hb fuel now lastHB installed t : Nat)
    (rest : List (Nat × ClientMsg)) :
    wait_installation hb (fuel + 1) now lastHB installed ((t, .InstallStarted) :: rest) =
      if lastHB + hb < now then (.hbTimeout now, [])
      else if t ≤ now + 100 then
        wait_installation hb fuel (max now t) (max now t) installed rest
      else wait_installation hb fuel (now + 100) lastHB installed
        ((t, .InstallStarted) :: rest) := rfl

/-- One step on a pending `InstallDone`: ends the loop with the current
installed count. -/
lemma wait_step_done (hb fuel now lastHB installed t : Nat)
    (rest : List (Nat × ClientMsg)) :
    wait_installation hb (fuel + 1) now lastHB installed ((t, .InstallDone) :: rest) =
      if lastHB + hb < now then (.hbTimeout now, [])
      else if t ≤ now + 100 then (.done installed (max now t), [])
      else wait_installation hb fuel (now + 100) lastHB installed
        ((t, .InstallDone) :: rest) := rfl

/-- One step on a pending `Error`: logged, heartbeat instant NOT reset. -/
lemma wait_step_error (hb fuel now lastHB installed t : Nat) (e : String)
    (rest : List (Nat × ClientMsg)) :
    wait_installation hb (fuel + 1) now lastHB installed ((t, .Error e) :: rest) =
      if lastHB + hb < now then (.hbTimeout now, [])
      else if t ≤ now + 100 then
        ((wait_installation hb fuel (max now t) lastHB installed rest).1,
          .logClientError e :: (wait_installation hb fuel (max now t) lastHB installed rest).2)
      else wait_installation hb fuel (now + 100) lastHB installed
        ((t, .Error e) :: rest) := rfl

/-- One step on a pending `DeviceInstall`: progress is emitted and the
installed count bumped on `Ok`; the heartbeat instant is NOT reset. -/
lemma wait_step_device (hb fuel now lastHB installed t : Nat) (d : Device)
    (res : InstallResult) (rest : List (Nat × ClientMsg)) :
    wait_installation hb (fuel + 1) now lastHB installed ((t, .DeviceInstall d res) :: rest) =
      if lastHB + hb < now then (.hbTimeout now, [])
      else if t ≤ now + 100 then
        ((wait_installation hb fuel (max now t) lastHB
            (installed + if resultIsOk res then 1 else 0) rest).1,
          .progress (.Device d res)
            :: (wait_installation hb fuel (max now t) lastHB
              (installed + if resultIsOk res then 1 else 0) rest).2)
      else wait_installation hb fuel (now + 100) lastHB installed
        ((t, .DeviceInstall d res) :: rest) := rfl

/-- If every pending message either arrives strictly after the last poll
window of the heartbeat deadline or is a non-resetting message
(`DeviceInstall`/`Error`), the receive loop raises the heartbeat timeout,
within one poll interval (100 ms) of the deadline. -/
lemma wait_hb_abort {hb : Nat} :
    ∀ fuel {now lastHB installed : Nat} {evs : List (Nat × ClientMsg)},
      (∀ e ∈ evs, lastHB + hb + 100 < e.1 ∨ nonResetting e.2 = true) →
      now ≤ lastHB + hb + 100 →
      100 * evs.length + (lastHB + hb + 101) ≤ 100 * fuel + now →
      ∃ te eff, wait_installation hb fuel now lastHB installed evs = (.hbTimeout te, eff)
        ∧ lastHB + hb < te ∧ te ≤ lastHB + hb + 100 := by
  intro fuel
  induction fuel with
  | zero =>
    intro now lastHB installed evs _ hnow hfuel
    exact absurd hfuel (by omega)
  | succ fuel ih =>
    intro now lastHB installed evs hev hnow hfuel
    by_cases hchk : lastHB + hb < now
    · exact ⟨now, [], by rw [wait_installation_succ, if_pos hchk], hchk, hnow⟩
    · match evs, hev, hfuel with
      | [], _, hfuel =>
        rw [wait_step_nil, if_neg hchk]
        exact ih (fun e he => absurd he (List.not_mem_nil e)) (by omega)
          (by simp at hfuel ⊢; omega)
      | (t, m) :: rest, hev, hfuel =>
        have hlen : 100 * (rest.length + 1) + (lastHB + hb + 101) ≤ 100 * (fuel + 1) + now := by
          simpa [List.length_cons] using hfuel
        by_cases hrcv : t ≤ now + 100
        · have hm : nonResetting m = true := by
            rcases hev (t, m) (List.mem_cons_self _ _) with hlate | hm
            · exact absurd hlate (by omega)
            · exact hm
          have hmax : now ≤ max now t := Nat.le_max_left now t
          have hmax2 : max now t ≤ lastHB + hb + 100 :=
            Nat.max_le.mpr ⟨by omega, by omega⟩
          have hrest : ∀ e ∈ rest, lastHB + hb + 100 < e.1 ∨ nonResetting e.2 = true :=
            fun e he => hev e (List.mem_cons_of_mem _ he)
          match m, hm with
          | .Error e, _ =>
            rw [wait_step_error, if_neg hchk, if_pos hrcv]
            obtain ⟨te, eff, heq, h1, h2⟩ :=
              @ih (max now t) lastHB installed rest hrest hmax2 (by omega)
            exact ⟨te, .logClientError e :: eff, by rw [heq], h1, h2⟩
          | .DeviceInstall d res, _ =>
            rw [wait_step_device, if_neg hchk, if_pos hrcv]
            obtain ⟨te, eff, heq, h1, h2⟩ :=
              @ih (max now t) lastHB (installed + if resultIsOk res then 1 else 0) rest
                hrest hmax2 (by omega)
            exact ⟨te, .progress (.Device d res) :: eff, by rw [heq], h1, h2⟩
        · cases m with
          | Heatbeat =>
            rw [wait_step_heartbeat, if_neg hchk, if_neg hrcv]
            exact ih hev (by omega) (by omega)
          | InstallStarted =>
            rw [wait_step_started, if_neg hchk, if_neg hrcv]
            exact ih hev (by omega) (by omega)
          | InstallDone =>
            rw [wait_step_done, if_neg hchk, if_neg hrcv]
            exact ih hev (by omega) (by omega)
          | Error e =>
            rw [wait_step_error, if_neg hchk, if_neg hrcv]
            exact ih hev (by omega) (by omega)
          | DeviceInstall d res =>
            rw [wait_step_device, if_neg hchk, if_neg hrcv]
            exact ih hev (by omega) (by omega)

/-- Every effect the receive loop emits is a client-error log line or a
per-device progress event. -/
lemma wait_eff_mem {hb : Nat} :
    ∀ fuel {now lastHB installed : Nat} {evs : List (Nat × ClientMsg)} {e : Effect},
      e ∈ (wait_installation hb fuel now lastHB installed evs).2 →
      (∃ s, e = .logClientError s) ∨ ∃ d r, e = .progress (.Device d r) := by
  intro fuel
  induction fuel with
  | zero =>
    intro now lastHB installed evs e h
    rw [wait_installation_zero] at h
    exact absurd h (List.not_mem_nil e)
  | succ fuel ih =>
    intro now lastHB installed evs e h
    by_cases hchk : lastHB + hb < now
    · rw [wait_installation_succ, if_pos hchk] at h
      exact absurd h (List.not_mem_nil e)
    · match evs, h with
      | [], h =>
        rw [wait_step_nil, if_neg hchk] at h
        exact ih h
      | (t', m) :: rest, h =>
        by_cases hrcv : t' ≤ now + 100
        · match m, h with
          | .Heatbeat, h =>
            rw [wait_step_heartbeat, if_neg hchk, if_pos hrcv] at h
            exact ih h
          | .InstallStarted, h =>
            rw [wait_step_started, if_neg hchk, if_pos hrcv] at h
            exact ih h
          | .InstallDone, h =>
            rw [wait_step_done, if_neg hchk, if_pos hrcv] at h
            exact absurd h (List.not_mem_nil e)
          | .Error s, h =>
            rw [wait_step_error, if_neg hchk, if_pos hrcv] at h
            rcases List.mem_cons.mp h with he | he
            · exact Or.inl ⟨s, he⟩
            · exact ih he
          | .DeviceInstall d res, h =>
            rw [wait_step_device, if_neg hchk, if_pos hrcv] at h
            rcases List.mem_cons.mp h with he | he
            · exact Or.inr ⟨d, res, he⟩
            · exact ih he
        · cases m with
          | Heatbeat =>
            rw [wait_step_heartbeat, if_neg hchk, if_neg hrcv] at h
            exact ih h
          | InstallStarted =>
            rw [wait_step_started, if_neg hchk, if_neg hrcv] at h
            exact ih h
          | InstallDone =>
            rw [wait_step_done, if_neg hchk, if_neg hrcv] at h
            exact ih h
          | Error s =>
            rw [wait_step_error, if_neg hchk, if_neg hrcv] at h
            exact ih h
          | DeviceInstall d res =>
            rw [wait_step_device, if_neg hchk, if_neg hrcv] at h
            exact ih h

/-! ## Lemmas about `wait_for_start` -/

lemma start_step_nil (deadline : Nat) :
    wait_for_start deadline [] = (.timeout, []) := rfl

lemma start_step_heartbeat (deadline t : Nat) (rest : List (Nat × ClientMsg)) :
    wait_for_start deadline ((t, .Heatbeat) :: rest) =
      if deadline < t then (.timeout, []) else wait_for_start deadline rest := rfl

lemma start_step_error (deadline t : Nat) (e : String) (rest : List (Nat × ClientMsg)) :
    wait_for_start deadline ((t, .Error e) :: rest) =
      if deadline < t then (.timeout, [])
      else ((wait_for_start deadline rest).1,
        .logClientError e :: (wait_for_start deadline rest).2) := rfl

lemma start_step_started (deadline t : Nat) (rest : List (Nat × ClientMsg)) :
    wait_for_start deadline ((t, .InstallStarted) :: rest) =
      if deadline < t then (.timeout, []) else (.started t rest, []) := rfl

lemma start_step_device (deadline t : Nat) (d : Device) (res : InstallResult)
    (rest : List (Nat × ClientMsg)) :
    wait_for_start deadline ((t, .DeviceInstall d res) :: rest) =
      if deadline < t then (.timeout, [])
      else (.protocolViolation (.DeviceInstall d res) t, []) := rfl

lemma start_step_done (deadline t : Nat) (rest : List (Nat × ClientMsg)) :
    wait_for_start deadline ((t, .InstallDone) :: rest) =
      if deadline < t then (.timeout, [])
      else (.protocolViolation .InstallDone t, []) := rfl

/-- The start handshake scans over skippable (`Heatbeat`/`Error`)
in-deadline messages, accumulating only the error log lines. -/
lemma start_skip (deadline : Nat) :
    ∀ (pre tail : List (Nat × ClientMsg)),
      (∀ e ∈ pre, e.1 ≤ deadline ∧ skippable e.2 = true) →
      wait_for_start deadline (pre ++ tail) =
        ((wait_for_start deadline tail).1,
          startEffects pre ++ (wait_for_start deadline tail).2) := by
  intro pre
  induction pre with
  | nil => intro tail _; simp [startEffects]
  | cons hd pre ih =>
    intro tail hpre
    obtain ⟨t, m⟩ := hd
    obtain ⟨ht, hm⟩ := hpre (t, m) (List.mem_cons_self _ _)
    have hpre' := fun e he => hpre e (List.mem_cons_of_mem _ he)
    have hnl : ¬ deadline < t := by omega
    match m, hm with
    | .Heatbeat, _ =>
      rw [List.cons_append, start_step_heartbeat, if_neg hnl, ih tail hpre']
      simp [startEffects, List.filterMap_cons]
    | .Error e, _ =>
      rw [List.cons_append, start_step_error, if_neg hnl, ih tail hpre']
      simp [startEffects, List.filterMap_cons]

/-- Every effect the start handshake emits is a client-error log line. -/
lemma start_eff_mem :
    ∀ {deadline : Nat} {evs : List (Nat × ClientMsg)} {e : Effect},
      e ∈ (wait_for_start deadline evs).2 → ∃ s, e = .logClientError s := by
  intro deadline evs
  induction evs with
  | nil =>
    intro e h
    exact absurd h (List.not_mem_nil e)
  | cons hd rest ih =>
    intro e h
    obtain ⟨t, m⟩ := hd
    by_cases hd : deadline < t
    · cases m <;>
        [rw [start_step_device, if_pos hd] at h;
         rw [start_step_error, if_pos hd] at h;
         rw [start_step_started, if_pos hd] at h;
         rw [start_step_done, if_pos hd] at h;
         rw [start_step_heartbeat, if_pos hd] at h] <;>
        exact absurd h (List.not_mem_nil e)
    · cases m with
      | DeviceInstall d res =>
        rw [start_step_device, if_neg hd] at h
        exact absurd h (List.not_mem_nil e)
      | Error s =>
        rw [start_step_error, if_neg hd] at h
        rcases List.mem_cons.mp h with he | he
        · exact ⟨s, he⟩
        · exact ih he
      | InstallStarted =>
        rw [start_step_started, if_neg hd] at h
        exact absurd h (List.not_mem_nil e)
      | InstallDone =>
        rw [start_step_done, if_neg hd] at h
        exact absurd h (List.not_mem_nil e)
      | Heatbeat =>
        rw [start_step_heartbeat, if_neg hd] at h
        exact ih h

/-! ## Lemmas about the effects of the setup phase -/

lemma okProg_setup (pn : String) (hc : Bool) (logger : Option Window)
    (config : InstallConfig) (devices : List Device) :
    okProgCount (setupEffects pn hc logger config devices) = 0 := by
  cases hc <;> rcases logger with _ | w <;>
    simp [setupEffects, okProgCount, isOkDeviceProg]

lemma sendExit_not_setup (pn : String) (hc : Bool) (logger : Option Window)
    (config : InstallConfig) (devices : List Device) (b : Bool) :
    Effect.sendExit b ∉ setupEffects pn hc logger config devices := by
  cases hc <;> rcases logger with _ | w <;> simp [setupEffects]

lemma okProg_of_all_log {eff : List Effect}
    (h : ∀ e ∈ eff, ∃ s, e = .logClientError s) : okProgCount eff = 0 := by
  rw [okProgCount, List.countP_eq_zero]
  intro e he
  obtain ⟨s, hs⟩ := h e he
  subst hs
  simp [isOkDeviceProg]

lemma okProg_append (l1 l2 : List Effect) :
    okProgCount (l1 ++ l2) = okProgCount l1 + okProgCount l2 :=
  List.countP_append ..

lemma okProg_cons (x : Effect) (l : List Effect) :
    okProgCount (x :: l) = okProgCount l + (if isOkDeviceProg x then 1 else 0) :=
  List.countP_cons ..

lemma okProg_nil : okProgCount [] = 0 := rfl

/-- No `sendExit` occurs among the effects of setup, handshake and
installing phases. -/
lemma sendExit_not_phase (hb : Nat) (pn : String) (hc : Bool) (logger : Option Window)
    (config : InstallConfig) (devices : List Device) (fuel now lastHB installed : Nat)
    (evs : List (Nat × ClientMsg)) (seff : List Effect)
    (hseff : ∀ e ∈ seff, ∃ s, e = .logClientError s) (b2 : Bool) :
    Effect.sendExit b2 ∉ setupEffects pn hc logger config devices ++ seff
        ++ [Effect.progress .Started]
        ++ (wait_installation hb fuel now lastHB installed evs).2 := by
  intro hmem
  rcases List.mem_append.mp hmem with hmem | hmem
  · rcases List.mem_append.mp hmem with hmem | hmem
    · rcases List.mem_append.mp hmem with hmem | hmem
      · exact sendExit_not_setup _ _ _ _ _ _ hmem
      · obtain ⟨s, hs⟩ := hseff _ hmem
        exact Effect.noConfusion hs
    · simp at hmem
  · rcases wait_eff_mem fuel hmem with ⟨s, hs⟩ | ⟨d, r, hs⟩ <;>
      exact Effect.noConfusion hs

/-- No `sendExit` occurs among the effects of setup plus handshake. -/
lemma sendExit_not_setup_start (pn : String) (hc : Bool) (logger : Option Window)
    (config : InstallConfig) (devices : List Device) (seff : List Effect)
    (hseff : ∀ e ∈ seff, ∃ s, e = .logClientError s) (b2 : Bool) :
    Effect.sendExit b2 ∉ setupEffects pn hc logger config devices ++ seff := by
  intro hmem
  rcases List.mem_append.mp hmem with hmem | hmem
  · exact sendExit_not_setup _ _ _ _ _ _ hmem
  · obtain ⟨s, hs⟩ := hseff _ hmem
    exact Effect.noConfusion hs

/-- In a normally completed receive loop the returned installed count is
the entry count plus the number of `Ok` device-progress events emitted. -/
lemma wait_done_count {hb : Nat} :
    ∀ fuel {now lastHB installed : Nat} {evs : List (Nat × ClientMsg)}
      {inst t : Nat} {eff : List Effect},
      wait_installation hb fuel now lastHB installed evs = (.done inst t, eff) →
      inst = installed + okProgCount eff := by
  intro fuel
  induction fuel with
  | zero =>
    intro now lastHB installed evs inst t eff h
    rw [wait_installation_zero] at h
    exact absurd (congrArg Prod.fst h) (by simp)
  | succ fuel ih =>
    intro now lastHB installed evs inst t eff h
    by_cases hchk : lastHB + hb < now
    · rw [wait_installation_succ, if_pos hchk] at h
      exact absurd (congrArg Prod.fst h) (by simp)
    · match evs, h with
      | [], h =>
        rw [wait_step_nil, if_neg hchk] at h
        exact ih h
      | (t', m) :: rest, h =>
        by_cases hrcv : t' ≤ now + 100
        · match m, h with
          | .Heatbeat, h =>
            rw [wait_step_heartbeat, if_neg hchk, if_pos hrcv] at h
            exact ih h
          | .InstallStarted, h =>
            rw [wait_step_started, if_neg hchk, if_pos hrcv] at h
            exact ih h
          | .InstallDone, h =>
            rw [wait_step_done, if_neg hchk, if_pos hrcv] at h
            obtain ⟨h1, h2⟩ := Prod.mk.injEq .. ▸ h
            cases h1
            simp [okProgCount, ← h2]
          | .Error e, h =>
            rw [wait_step_error, if_neg hchk, if_pos hrcv] at h
            obtain ⟨h1, h2⟩ := Prod.mk.injEq .. ▸ h
            have hrec := ih (Prod.ext h1 rfl :
              wait_installation hb fuel (max now t') lastHB installed rest
                = (.done inst t, (wait_installation hb fuel (max now t') lastHB installed rest).2))
            rw [hrec, ← h2]
            simp [okProgCount, List.countP_cons, isOkDeviceProg]
          | .DeviceInstall d res, h =>
            rw [wait_step_device, if_neg hchk, if_pos hrcv] at h
            obtain ⟨h1, h2⟩ := Prod.mk.injEq .. ▸ h
            have hrec := ih (Prod.ext h1 rfl :
              wait_installation hb fuel (max now t') lastHB
                  (installed + if resultIsOk res then 1 else 0) rest
                = (.done inst t,
                  (wait_installation hb fuel (max now t') lastHB
                    (installed + if resultIsOk res then 1 else 0) rest).2))
            rw [hrec, ← h2]
            cases res with
            | ok u =>
              simp [okProgCount, List.countP_cons, isOkDeviceProg, resultIsOk]
              omega
            | error e =>
              simp [okProgCount, List.countP_cons, isOkDeviceProg, resultIsOk]
        · cases m with
          | Heatbeat =>
            rw [wait_step_heartbeat, if_neg hchk, if_neg hrcv] at h
            exact ih h
          | InstallStarted =>
            rw [wait_step_started, if_neg hchk, if_neg hrcv] at h
            exact ih h
          | InstallDone =>
            rw [wait_step_done, if_neg hchk, if_neg hrcv] at h
            exact ih h
          | Error e =>
            rw [wait_step_error, if_neg hchk, if_neg hrcv] at h
            exact ih h
          | DeviceInstall d res =>
            rw [wait_step_device, if_neg hchk, if_neg hrcv] at h
            exact ih h

/-! ## Claim C3 (confirmed) -/

/-- C3: if, from the moment of the last heartbeat reset, no message is
received for longer than the 5 s heartbeat deadline (every pending message
arrives after the final poll window), the Installing-phase receive loop
terminates with the heartbeat-timeout error within one poll interval
(100 ms) of the deadline — it cannot wait indefinitely.  `wait_installation`
enters with `now = lastHB` exactly as `Server::install` does. -/
theorem c3_heartbeat_deadline (lastHB installed fuel : Nat)
    (evs : List (Nat × ClientMsg))
    (hev : ∀ e ∈ evs, lastHB + 5100 < e.1)
    (hfuel : 100 * evs.length + 5101 ≤ 100 * fuel) :
    ∃ te eff, wait_installation 5000 fuel lastHB lastHB installed evs = (.hbTimeout te, eff)
      ∧ lastHB + 5000 < te ∧ te ≤ lastHB + 5100 := by
  obtain ⟨te, eff, heq, h1, h2⟩ :=
    @wait_hb_abort 5000 fuel lastHB lastHB installed evs
      (fun e he => Or.inl (by have := hev e he; omega))
      (by omega) (by omega)
  exact ⟨te, eff, heq, by omega, by omega⟩

/-- C3 witness: a silent worker aborts between 5.0 s and 5.1 s. -/
theorem c3_heartbeat_deadline_witness :
    ∃ te eff, wait_installation 5000 52 0 0 0 [] = (.hbTimeout te, eff)
      ∧ 0 + 5000 < te ∧ te ≤ 0 + 5100 :=
  c3_heartbeat_deadline 0 0 52 [] (fun e he => absurd he (List.not_mem_nil e)) (by simp)

/-! ## Claim C10 (confirmed) -/

/-- C10: in the Installing-phase receive loop only `Heatbeat` and
`InstallStarted` reset the heartbeat instant; `DeviceInstall` and `Error`
leave it unchanged.  Consequently a worker that keeps sending only device
results or errors for longer than the 5 s heartbeat deadline is aborted
with the heartbeat-timeout error even though messages keep arriving. -/
theorem c10_only_heartbeat_resets
    (now lastHB n t fuel fuel2 lastHB2 n2 : Nat) (d : Device) (res : InstallResult)
    (err : String) (rest evs : List (Nat × ClientMsg))
    (hnow : ¬ lastHB + 5000 < now) (ht : t ≤ now + 100)
    (hnr : ∀ e ∈ evs, nonResetting e.2 = true)
    (hfuel : 100 * evs.length + 5101 ≤ 100 * fuel2) :
    wait_installation 5000 (fuel + 1) now lastHB n ((t, .Heatbeat) :: rest)
        = wait_installation 5000 fuel (max now t) (max now t) n rest
      ∧ wait_installation 5000 (fuel + 1) now lastHB n ((t, .InstallStarted) :: rest)
        = wait_installation 5000 fuel (max now t) (max now t) n rest
      ∧ wait_installation 5000 (fuel + 1) now lastHB n ((t, .DeviceInstall d res) :: rest)
        = ((wait_installation 5000 fuel (max now t) lastHB
              (n + if resultIsOk res then 1 else 0) rest).1,
           .progress (.Device d res)
             :: (wait_installation 5000 fuel (max now t) lastHB
               (n + if resultIsOk res then 1 else 0) rest).2)
      ∧ wait_installation 5000 (fuel + 1) now lastHB n ((t, .Error err) :: rest)
        = ((wait_installation 5000 fuel (max now t) lastHB n rest).1,
           .logClientError err
             :: (wait_installation 5000 fuel (max now t) lastHB n rest).2)
      ∧ ∃ te eff, wait_installation 5000 fuel2 lastHB2 lastHB2 n2 evs
          = (.hbTimeout te, eff) ∧ lastHB2 + 5000 < te ∧ te ≤ lastHB2 + 5100 := by
  refine ⟨?_, ?_, ?_, ?_, ?_⟩
  · rw [wait_step_heartbeat, if_neg hnow, if_pos ht]
  · rw [wait_step_started, if_neg hnow, if_pos ht]
  · rw [wait_step_device, if_neg hnow, if_pos ht]
  · rw [wait_step_error, if_neg hnow, if_pos ht]
  · obtain ⟨te, eff, heq, h1, h2⟩ :=
      @wait_hb_abort 5000 fuel2 lastHB2 lastHB2 n2 evs
        (fun e he => Or.inr (hnr e he)) (by omega) (by omega)
    exact ⟨te, eff, heq, by omega, by omega⟩

/-- C10 witness: a worker sending only device results and errors is
aborted with the heartbeat timeout despite the traffic. -/
theorem c10_only_heartbeat_resets_witness :
    wait_installation 5000 4 0 0 0 [(50, .Heatbeat)]
        = wait_installation 5000 3 (max 0 50) (max 0 50) 0 []
      ∧ wait_installation 5000 4 0 0 0 [(50, .InstallStarted)]
        = wait_installation 5000 3 (max 0 50) (max 0 50) 0 []
      ∧ wait_installation 5000 4 0 0 0 [(50, .DeviceInstall dev0 (.ok ()))]
        = ((wait_installation 5000 3 (max 0 50) 0
              (0 + if resultIsOk (.ok ()) then 1 else 0) []).1,
           .progress (.Device dev0 (.ok ()))
             :: (wait_installation 5000 3 (max 0 50) 0
               (0 + if resultIsOk (.ok ()) then 1 else 0) []).2)
      ∧ wait_installation 5000 4 0 0 0 [(50, .Error "e")]
        = ((wait_installation 5000 3 (max 0 50) 0 0 []).1,
           .logClientError "e" :: (wait_installation 5000 3 (max 0 50) 0 0 []).2)
      ∧ ∃ te eff, wait_installation 5000 54 0 0 0
            [(0, .DeviceInstall dev0 (.ok ())), (7000, .Error "late")]
          = (.hbTimeout te, eff) ∧ 0 + 5000 < te ∧ te ≤ 0 + 5100 :=
  c10_only_heartbeat_resets 0 0 0 50 3 54 0 0 dev0 (.ok ()) "e" []
    [(0, .DeviceInstall dev0 (.ok ())), (7000, .Error "late")]
    (by omega) (by omega) (by decide) (by decide)

/-! ## Claim C5 (confirmed) -/

/-- C5: under the 30 s start timeout, the handshake succeeds exactly on the
first `InstallStarted`, skipping interleaved `Heatbeat`s and logging (but
not failing on) `Error`s; an in-deadline `InstallDone` or `DeviceInstall`
is a protocol violation; a schedule of only skippable messages, or whose
next message arrives after the deadline, times out. -/
theorem c5_start_handshake (pre rest evs2 rest3 : List (Nat × ClientMsg))
    (t t3 : Nat) (d : Device) (res : InstallResult) (m3 : ClientMsg)
    (hpre : ∀ e ∈ pre, e.1 ≤ 30000 ∧ skippable e.2 = true)
    (ht : t ≤ 30000)
    (hevs2 : ∀ e ∈ evs2, e.1 ≤ 30000 ∧ skippable e.2 = true)
    (ht3 : 30000 < t3) :
    wait_for_start 30000 (pre ++ (t, .InstallStarted) :: rest)
        = (.started t rest, startEffects pre)
      ∧ wait_for_start 30000 (pre ++ (t, .InstallDone) :: rest)
        = (.protocolViolation .InstallDone t, startEffects pre)
      ∧ wait_for_start 30000 (pre ++ (t, .DeviceInstall d res) :: rest)
        = (.protocolViolation (.DeviceInstall d res) t, startEffects pre)
      ∧ wait_for_start 30000 evs2 = (.timeout, startEffects evs2)
      ∧ wait_for_start 30000 ((t3, m3) :: rest3) = (.timeout, []) := by
  have hnl : ¬ 30000 < t := by omega
  refine ⟨?_, ?_, ?_, ?_, ?_⟩
  · rw [start_skip 30000 pre _ hpre, start_step_started, if_neg hnl]
    simp
  · rw [start_skip 30000 pre _ hpre, start_step_done, if_neg hnl]
    simp
  · rw [start_skip 30000 pre _ hpre, start_step_device, if_neg hnl]
    simp
  · have h := start_skip 30000 evs2 [] hevs2
    rw [List.append_nil] at h
    rw [h, start_step_nil]
    simp
  · cases m3 <;>
      [rw [start_step_device, if_pos ht3];
       rw [start_step_error, if_pos ht3];
       rw [start_step_started, if_pos ht3];
       rw [start_step_done, if_pos ht3];
       rw [start_step_heartbeat, if_pos ht3]]

/-- C5 witness: a heartbeat and a logged error precede the decisive
message; a lone heartbeat times out; a message after 30 s times out. -/
theorem c5_start_handshake_witness :
    wait_for_start 30000 ([(0, .Heatbeat), (10, .Error "boot")]
          ++ (20, .InstallStarted) :: [(30, .Heatbeat)])
        = (.started 20 [(30, .Heatbeat)],
          startEffects [(0, .Heatbeat), (10, .Error "boot")])
      ∧ wait_for_start 30000 ([(0, .Heatbeat), (10, .Error "boot")]
          ++ (20, .InstallDone) :: [(30, .Heatbeat)])
        = (.protocolViolation .InstallDone 20,
          startEffects [(0, .Heatbeat), (10, .Error "boot")])
      ∧ wait_for_start 30000 ([(0, .Heatbeat), (10, .Error "boot")]
          ++ (20, .DeviceInstall dev0 (.ok ())) :: [(30, .Heatbeat)])
        = (.protocolViolation (.DeviceInstall dev0 (.ok ())) 20,
          startEffects [(0, .Heatbeat), (10, .Error "boot")])
      ∧ wait_for_start 30000 [(0, .Heatbeat)] = (.timeout, startEffects [(0, .Heatbeat)])
      ∧ wait_for_start 30000 [(30001, .InstallStarted)] = (.timeout, []) :=
  c5_start_handshake [(0, .Heatbeat), (10, .Error "boot")] [(30, .Heatbeat)]
    [(0, .Heatbeat)] [] 20 30001 dev0 (.ok ()) .InstallStarted
    (by decide) (by omega) (by decide) (by omega)

/-! ## Claim C7 (confirmed) -/

/-- C7: for the empty device list `Server::install` returns success
immediately as a pure no-op — the only trace is the warning log line: no
listener, no spawned worker, no sent message, no progress event — and the
server state (pipe id, executable, stored child) is returned unchanged. -/
theorem c7_empty_list_noop (srv : Server) (config : InstallConfig)
    (logger : Option Window) (b : Bool) (fuel : Nat)
    (schedule : List (Nat × ClientMsg)) :
    srv.install config [] logger b fuel schedule = (.ok (), [.logNoDevices], srv)
      ∧ (∀ n, Effect.createListener n ∉ (srv.install config [] logger b fuel schedule).2.1)
      ∧ (∀ n, Effect.spawnChild n ∉ (srv.install config [] logger b fuel schedule).2.1)
      ∧ (∀ m : ServerMsg, Effect.send m ∉ (srv.install config [] logger b fuel schedule).2.1)
      ∧ (∀ p : Progress, Effect.progress p ∉ (srv.install config [] logger b fuel schedule).2.1)
      ∧ (srv.install config [] logger b fuel schedule).2.2 = srv := by
  have h : srv.install config [] logger b fuel schedule = (.ok (), [.logNoDevices], srv) := by
    rw [Server.install]
    simp
  refine ⟨h, fun n => ?_, fun n => ?_, fun m => ?_, fun p => ?_, by rw [h]⟩ <;>
    rw [h] <;> simp

/-! ## Claim C1 (confirmed) -/

/-- C1: whenever `Server::install` completes normally on a non-empty
device list, the trace contains the `Exit` (`Terminate`) send attempt
(whether or not it succeeded — a failed send is only logged) and ends with
the final installed/total tally it reports, whose installed count equals
the number of `Ok` device results received (each forwarded as a
`Progress::Device` event). -/
theorem c1_normal_completion {srv : Server} {config : InstallConfig}
    {devices : List Device} {logger : Option Window} {b : Bool} {fuel : Nat}
    {schedule : List (Nat × ClientMsg)} {eff : List Effect} {srv2 : Server}
    (hne : devices ≠ [])
    (hok : srv.install config devices logger b fuel schedule = (.ok (), eff, srv2)) :
    Effect.sendExit b ∈ eff
      ∧ eff.getLast? = some (.logTally (okProgCount eff) devices.length) := by
  rw [Server.install] at hok
  rw [if_neg (by simpa [List.length_eq_zero] using hne)] at hok
  split at hok
  case _ seff heq => exact absurd (congrArg Prod.fst hok) (by simp)
  case _ m t seff heq => exact absurd (congrArg Prod.fst hok) (by simp)
  case _ tSt rest seff heq =>
    split at hok
    case _ weff hw => exact absurd (congrArg Prod.fst hok) (by simp)
    case _ te weff hw =>
      split at hok <;> exact absurd (congrArg Prod.fst hok) (by simp)
    case _ inst tDone weff hw =>
      split at hok
      case isFalse => exact absurd (congrArg Prod.fst hok) (by simp)
      case isTrue h360 =>
        rw [Prod.mk.injEq, Prod.mk.injEq] at hok
        obtain ⟨-, heff, -⟩ := hok
        subst heff
        have hseff : ∀ e ∈ seff, ∃ s, e = .logClientError s := fun e he =>
          @start_eff_mem 30000 schedule e (by rw [heq]; exact he)
        have h0 : okProgCount seff = 0 := okProg_of_all_log hseff
        have hsetup := okProg_setup srv.get_pipe_name srv.child.isSome logger config devices
        have hw' := wait_done_count fuel hw
        have hcnt : okProgCount
            ((setupEffects srv.get_pipe_name srv.child.isSome logger config devices
                ++ seff ++ [Effect.progress Progress.Started] ++ weff
                ++ if b = true then [Effect.sendExit true]
                   else [Effect.sendExit false, Effect.logExitSendFailed])
              ++ [Effect.logTally inst devices.length]) = inst := by
          cases b <;>
            simp [okProg_append, okProg_cons, okProg_nil, hsetup, h0, isOkDeviceProg] <;>
            omega
        refine ⟨?_, ?_⟩
        · cases b <;> simp
        · rw [hcnt]
          exact List.getLast?_concat _

/-- C1 witness: the end-to-end scenario — two devices, one `Ok` and one
`Err("x")` result, then `InstallFinished`: the reported tally is 1 of 2,
the `Exit` send attempt is in the trace, and the tally is the last
effect. -/
theorem c1_normal_completion_witness :
    Effect.sendExit true ∈ (srv0.install cfg0 [dev0, dev1] none true 60 twoDeviceSchedule).2.1
      ∧ (srv0.install cfg0 [dev0, dev1] none true 60 twoDeviceSchedule).2.1.getLast?
        = some (.logTally
            (okProgCount (srv0.install cfg0 [dev0, dev1] none true 60 twoDeviceSchedule).2.1)
            [dev0, dev1].length) := by
  have h := @c1_normal_completion srv0 cfg0 [dev0, dev1] none true 60 twoDeviceSchedule
    (srv0.install cfg0 [dev0, dev1] none true 60 twoDeviceSchedule).2.1
    (srv0.install cfg0 [dev0, dev1] none true 60 twoDeviceSchedule).2.2
    (by decide) rfl
  exact h

/-! ## Claim C2 (corrected) -/

/-- C2 counterexample: a heartbeat-timeout abort of the session returns the
timeout error WITHOUT any attempt to send `Exit` (`Terminate`): the `?` on
the inner result of `tokio::time::timeout` propagates before the `Exit`
send is reached.  The claim says every timeout abort attempts a best-effort
`Terminate`. -/
theorem c2_counterexample :
    (srv0.install cfg0 [dev0] none true 60 silentSchedule).1
        = .error .heartbeatTimeout
      ∧ Effect.sendExit true ∉ (srv0.install cfg0 [dev0] none true 60 silentSchedule).2.1
      ∧ Effect.sendExit false ∉ (srv0.install cfg0 [dev0] none true 60 silentSchedule).2.1 := by
  refine ⟨by decide, by decide, by decide⟩

/-- C2 (amended): of the timeout aborts, only the overall 6-minute install
timeout triggers the best-effort `Terminate` (`Exit`) send before the error
is returned; the 30 s start-handshake timeout and the 5 s heartbeat
timeout return their (distinct) timeout errors without any `Terminate`
attempt, and the orchestrator places no timeout on the accept step at all
(the connect timeout belongs to the worker side).  The child process is
only killed later, when the `Server` is dropped. -/
theorem c2_timeout_terminate {srv : Server} {config : InstallConfig}
    {devices : List Device} {logger : Option Window} {b : Bool} {fuel : Nat}
    {schedule : List (Nat × ClientMsg)} {e : InstallError} {eff : List Effect}
    {srv2 : Server}
    (hok : srv.install config devices logger b fuel schedule = (.error e, eff, srv2)) :
    (e = .installTimeout → Effect.sendExit b ∈ eff)
      ∧ ((e = .heartbeatTimeout ∨ e = .startTimeout ∨ ∃ m, e = .protocolViolation m) →
          ∀ b2, Effect.sendExit b2 ∉ eff)
      ∧ InstallError.startTimeout ≠ InstallError.heartbeatTimeout
      ∧ InstallError.startTimeout ≠ InstallError.installTimeout
      ∧ InstallError.heartbeatTimeout ≠ InstallError.installTimeout := by
  rw [Server.install] at hok
  by_cases hlen : devices.length = 0
  · rw [if_pos hlen] at hok
    exact absurd (congrArg Prod.fst hok) (by simp)
  · rw [if_neg hlen] at hok
    split at hok
    case _ seff heq =>
      rw [Prod.mk.injEq, Prod.mk.injEq] at hok
      obtain ⟨herr, heff, -⟩ := hok
      have he : e = .startTimeout := by
        have := herr.symm
        simpa using this
      subst he
      subst heff
      refine ⟨fun hc => absurd hc (by simp), fun _ b2 => ?_, by simp, by simp, by simp⟩
      exact sendExit_not_setup_start _ _ _ _ _ _
        (fun x hx => @start_eff_mem 30000 schedule x
          (by rw [heq]; exact hx)) b2
    case _ m t seff heq =>
      rw [Prod.mk.injEq, Prod.mk.injEq] at hok
      obtain ⟨herr, heff, -⟩ := hok
      have he : e = .protocolViolation m := by
        have := herr.symm
        simpa using this
      subst he
      subst heff
      refine ⟨fun hc => absurd hc (by simp), fun _ b2 => ?_, by simp, by simp, by simp⟩
      exact sendExit_not_setup_start _ _ _ _ _ _
        (fun x hx => @start_eff_mem 30000 schedule x
          (by rw [heq]; exact hx)) b2
    case _ tSt rest seff heq =>
      have hseff : ∀ x ∈ seff, ∃ s, x = Effect.logClientError s := fun x hx =>
        @start_eff_mem 30000 schedule x (by rw [heq]; exact hx)
      split at hok
      case _ weff hw =>
        rw [Prod.mk.injEq, Prod.mk.injEq] at hok
        obtain ⟨herr, heff, -⟩ := hok
        have he : e = .modelFuel := by
          have := herr.symm
          simpa using this
        subst he
        subst heff
        refine ⟨fun hc => absurd hc (by simp), fun hc => ?_, by simp, by simp, by simp⟩
        rcases hc with hc | hc | ⟨m2, hc⟩ <;> exact absurd hc (by simp)
      case _ te weff hw =>
        split at hok
        case isTrue hin =>
          rw [Prod.mk.injEq, Prod.mk.injEq] at hok
          obtain ⟨herr, heff, -⟩ := hok
          have he : e = .heartbeatTimeout := by
            have := herr.symm
            simpa using this
          subst he
          subst heff
          refine ⟨fun hc => absurd hc (by simp), fun _ b2 => ?_, by simp, by simp, by simp⟩
          have := sendExit_not_phase 5000 srv.get_pipe_name srv.child.isSome
            logger config devices fuel tSt tSt 0 rest seff hseff b2
          rw [hw] at this
          exact this
        case isFalse hpast =>
          rw [Prod.mk.injEq, Prod.mk.injEq] at hok
          obtain ⟨herr, heff, -⟩ := hok
          have he : e = .installTimeout := by
            have := herr.symm
            simpa using this
          subst he
          subst heff
          refine ⟨fun _ => by simp, fun hc => ?_, by simp, by simp, by simp⟩
          rcases hc with hc | hc | ⟨m2, hc⟩ <;> exact absurd hc (by simp)
      case _ inst tDone weff hw =>
        split at hok
        case isTrue => exact absurd (congrArg Prod.fst hok) (by simp)
        case isFalse hpast =>
          rw [Prod.mk.injEq, Prod.mk.injEq] at hok
          obtain ⟨herr, heff, -⟩ := hok
          have he : e = .installTimeout := by
            have := herr.symm
            simpa using this
          subst he
          subst heff
          refine ⟨fun _ => by simp, fun hc => ?_, by simp, by simp, by simp⟩
          rcases hc with hc | hc | ⟨m2, hc⟩ <;> exact absurd hc (by simp)

/-- C2 witness: the heartbeat-timeout run of `c2_counterexample`, seen
through the amended theorem: the distinct timeout error comes back with no
`Exit` attempt in the trace. -/
theorem c2_timeout_terminate_witness :
    Effect.sendExit true ∉ (srv0.install cfg0 [dev0] none true 60 silentSchedule).2.1
      ∧ Effect.sendExit false ∉ (srv0.install cfg0 [dev0] none true 60 silentSchedule).2.1 := by
  have hok : srv0.install cfg0 [dev0] none true 60 silentSchedule
      = (.error .heartbeatTimeout,
        (srv0.install cfg0 [dev0] none true 60 silentSchedule).2.1,
        (srv0.install cfg0 [dev0] none true 60 silentSchedule).2.2) := by
    have h1 : (srv0.install cfg0 [dev0] none true 60 silentSchedule).1
        = .error .heartbeatTimeout := by decide
    rw [← h1]
  have h := c2_timeout_terminate hok
  exact ⟨h.2.1 (Or.inl rfl) true, h.2.1 (Or.inl rfl) false⟩

/-! ## Lemmas about the wire codec -/

lemma decNat_encNat : ∀ (w n : Nat) (r : List Nat), n < 256 ^ w →
    decNat w (encNat w n ++ r) = some (n, r) := by
  intro w
  induction w with
  | zero =>
    intro n r h
    have h0 : n = 0 := by simpa using h
    subst h0
    rfl
  | succ w ih =>
    intro n r h
    have hpow : 256 ^ (w + 1) = 256 ^ w * 256 := by ring
    have hdiv : n / 256 < 256 ^ w := by
      rw [hpow] at h
      omega
    show decNat (w + 1) ((n % 256 :: encNat w (n / 256)) ++ r) = some (n, r)
    rw [List.cons_append]
    show (decNat w (encNat w (n / 256) ++ r)).map
      (fun p => (n % 256 + 256 * p.1, p.2)) = some (n, r)
    rw [ih (n / 256) r hdiv]
    simp [Nat.mod_add_div]

lemma decBool_encBool (b : Bool) (r : List Nat) :
    decBool (encBool b ++ r) = some (b, r) := by
  cases b <;> rfl

lemma decTokens_self (xs r : List Nat) :
    decTokens xs.length (xs ++ r) = some (xs, r) := by
  simp [decTokens, List.take_left, List.drop_left]

lemma decString_encString (s : String) (r : List Nat) (h : s.length < 2 ^ 64) :
    decString (encString s ++ r) = some (s, r) := by
  obtain ⟨l⟩ := s
  have hlen : (String.mk l).length = l.length := rfl
  have hb : l.length < 256 ^ 8 := by
    rw [hlen] at h
    norm_num at h ⊢
    omega
  show decString (encNat 8 l.length ++ l.map Char.toNat ++ r) = some (⟨l⟩, r)
  rw [List.append_assoc]
  simp only [decString, Option.bind_eq_bind]
  rw [decNat_encNat 8 l.length _ hb]
  have hml : l.length = (l.map Char.toNat).length := (List.length_map _ _).symm
  simp only [Option.some_bind]
  rw [hml, decTokens_self]
  simp [List.map_map,
    show Char.ofNat ∘ Char.toNat = id from funext fun c => Char.ofNat_toNat c]

lemma decOpt_encOpt {α : Type} (f : α → List Nat)
    (g : List Nat → Option (α × List Nat)) (o : Option α) (r : List Nat)
    (hfg : ∀ a ∈ o, ∀ r2, g (f a ++ r2) = some (a, r2)) :
    decOpt g (encOpt f o ++ r) = some (o, r) := by
  cases o with
  | none => rfl
  | some a =>
    show decOpt g (1 :: (f a ++ r)) = some (some a, r)
    show (g (f a ++ r)).map (fun p => (some p.1, p.2)) = some (some a, r)
    rw [hfg a rfl r]
    rfl

lemma decMany_enc {α : Type} (f : α → List Nat)
    (g : List Nat → Option (α × List Nat)) :
    ∀ (xs : List α) (r : List Nat),
      (∀ a ∈ xs, ∀ r2, g (f a ++ r2) = some (a, r2)) →
      decMany g xs.length (xs.flatMap f ++ r) = some (xs, r) := by
  intro xs
  induction xs with
  | nil => intro r _; rfl
  | cons x xs ih =>
    intro r h
    show decMany g (xs.length + 1) ((f x ++ xs.flatMap f) ++ r) = some (x :: xs, r)
    rw [List.append_assoc]
    simp only [decMany, Option.bind_eq_bind]
    rw [h x (List.mem_cons_self _ _) _]
    simp only [Option.some_bind]
    rw [ih r (fun a ha r2 => h a (List.mem_cons_of_mem _ ha) r2)]
    rfl

lemma decList_encList {α : Type} (f : α → List Nat)
    (g : List Nat → Option (α × List Nat)) (xs : List α) (r : List Nat)
    (hlen : xs.length < 2 ^ 64)
    (h : ∀ a ∈ xs, ∀ r2, g (f a ++ r2) = some (a, r2)) :
    decList g (encList f xs ++ r) = some (xs, r) := by
  have hb : xs.length < 256 ^ 8 := by
    norm_num at hlen ⊢
    omega
  show decList g (encNat 8 xs.length ++ xs.flatMap f ++ r) = some (xs, r)
  rw [List.append_assoc]
  simp only [decList, Option.bind_eq_bind]
  rw [decNat_encNat 8 xs.length _ hb]
  simp only [Option.some_bind]
  exact decMany_enc f g xs r h

lemma decResult_encResult (res : InstallResult) (r : List Nat) (h : resultWF res) :
    decResult (encResult res ++ r) = some (res, r) := by
  cases res with
  | ok u =>
    cases u
    show decResult (encNat 4 0 ++ r) = some (.ok (), r)
    simp only [decResult, Option.bind_eq_bind]
    rw [decNat_encNat 4 0 r (by norm_num)]
    rfl
  | error e =>
    show decResult ((encNat 4 1 ++ encString e) ++ r) = some (.error e, r)
    rw [List.append_assoc]
    simp only [decResult, Option.bind_eq_bind]
    rw [decNat_encNat 4 1 _ (by norm_num)]
    simp only [Option.some_bind]
    rw [decString_encString e r h]
    rfl

lemma decInt_encInt (w : Int) (r : List Nat)
    (h1 : -(2 ^ 63) ≤ w) (h2 : w < 2 ^ 63) :
    decInt (encInt w ++ r) = some (w, r) := by
  have hmodnn : 0 ≤ w % 2 ^ 64 := Int.emod_nonneg w (by norm_num)
  have hmodlt : w % 2 ^ 64 < 2 ^ 64 := Int.emod_lt_of_pos w (by norm_num)
  have hv : ((w % 2 ^ 64).toNat : Int) = w % 2 ^ 64 :=
    Int.toNat_of_nonneg hmodnn
  have hb : (w % 2 ^ 64).toNat < 256 ^ 8 := by
    norm_num at hmodlt ⊢
    omega
  simp only [encInt]
  rw [decInt]
  rw [decNat_encNat 8 _ r hb]
  simp only [Option.map_some']
  congr 1
  rw [Prod.mk.injEq]
  refine ⟨?_, rfl⟩
  by_cases hw : 0 ≤ w
  · have hlt : (w % 2 ^ 64).toNat < 2 ^ 63 := by omega
    rw [if_pos hlt]
    omega
  · have hge : ¬ (w % 2 ^ 64).toNat < 2 ^ 63 := by omega
    rw [if_neg hge]
    omega

set_option maxHeartbeats 1000000 in
lemma decDevice_encDevice (d : Device) (r : List Nat) (h : d.WF) :
    decDevice (encDevice d ++ r) = some (d, r) := by
  obtain ⟨vid, pid, isc, mi, dv, dsc, drv, did, hid, cid, uf⟩ := d
  obtain ⟨h1, h2, h3, h4, h5, h6, h7, h8, h9, h10⟩ := h
  have hvid : ∀ r2, decNat 2 (encNat 2 vid ++ r2) = some (vid, r2) :=
    fun r2 => decNat_encNat 2 vid r2 (by norm_num at h1 ⊢; omega)
  have hpid : ∀ r2, decNat 2 (encNat 2 pid ++ r2) = some (pid, r2) :=
    fun r2 => decNat_encNat 2 pid r2 (by norm_num at h2 ⊢; omega)
  have hbool : ∀ r2, decBool (encBool isc ++ r2) = some (isc, r2) :=
    fun r2 => decBool_encBool isc r2
  have hmi : ∀ r2, decOpt (decNat 1) (encOpt (encNat 1) mi ++ r2) = some (mi, r2) :=
    fun r2 => decOpt_encOpt _ _ _ _
      (fun a ha r3 => decNat_encNat 1 a r3 (by have := h3 a ha; norm_num at this ⊢; omega))
  have hdv : ∀ r2, decOpt (decNat 8) (encOpt (encNat 8) dv ++ r2) = some (dv, r2) :=
    fun r2 => decOpt_encOpt _ _ _ _
      (fun a ha r3 => decNat_encNat 8 a r3 (by have := h4 a ha; norm_num at this ⊢; omega))
  have hdsc : ∀ r2, decString (encString dsc ++ r2) = some (dsc, r2) :=
    fun r2 => decString_encString dsc r2 h5
  have hdrv : ∀ r2, decOpt decString (encOpt encString drv ++ r2) = some (drv, r2) :=
    fun r2 => decOpt_encOpt _ _ _ _ (fun a ha r3 => decString_encString a r3 (h6 a ha))
  have hdid : ∀ r2, decOpt decString (encOpt encString did ++ r2) = some (did, r2) :=
    fun r2 => decOpt_encOpt _ _ _ _ (fun a ha r3 => decString_encString a r3 (h7 a ha))
  have hhid : ∀ r2, decOpt decString (encOpt encString hid ++ r2) = some (hid, r2) :=
    fun r2 => decOpt_encOpt _ _ _ _ (fun a ha r3 => decString_encString a r3 (h8 a ha))
  have hcid : ∀ r2, decOpt decString (encOpt encString cid ++ r2) = some (cid, r2) :=
    fun r2 => decOpt_encOpt _ _ _ _ (fun a ha r3 => decString_encString a r3 (h9 a ha))
  have huf : ∀ r2, decOpt decString (encOpt encString uf ++ r2) = some (uf, r2) :=
    fun r2 => decOpt_encOpt _ _ _ _ (fun a ha r3 => decString_encString a r3 (h10 a ha))
  simp only [encDevice, List.append_assoc]
  simp only [decDevice, Option.bind_eq_bind]
  rw [hvid]
  simp only [Option.some_bind]
  rw [hpid]
  simp only [Option.some_bind]
  rw [hbool]
  simp only [Option.some_bind]
  rw [hmi]
  simp only [Option.some_bind]
  rw [hdv]
  simp only [Option.some_bind]
  rw [hdsc]
  simp only [Option.some_bind]
  rw [hdrv]
  simp only [Option.some_bind]
  rw [hdid]
  simp only [Option.some_bind]
  rw [hhid]
  simp only [Option.some_bind]
  rw [hcid]
  simp only [Option.some_bind]
  rw [huf]
  simp only [Option.some_bind]
  rfl

lemma decConfig_encConfig (c : InstallConfig) (r : List Nat) (h : c.WF) :
    decConfig (encConfig c ++ r) = some (c, r) := by
  obtain ⟨vendor, driver_path, inf_name⟩ := c
  obtain ⟨h1, h2, h3⟩ := h
  have hv : ∀ r2, decString (encString vendor ++ r2) = some (vendor, r2) :=
    fun r2 => decString_encString vendor r2 h1
  have hd : ∀ r2, decString (encString driver_path ++ r2) = some (driver_path, r2) :=
    fun r2 => decString_encString driver_path r2 h2
  have hi : ∀ r2, decString (encString inf_name ++ r2) = some (inf_name, r2) :=
    fun r2 => decString_encString inf_name r2 h3
  simp only [encConfig, List.append_assoc]
  simp only [decConfig, Option.bind_eq_bind]
  simp [hv, hd, hi]

lemma decServerMsg_enc (m : ServerMsg) (r : List Nat) (h : m.WF) :
    decServerMsg (encServerMsg m ++ r) = some (m, r) := by
  cases m with
  | Install config devices =>
    obtain ⟨hc, hlen, hdev⟩ := h
    have hcfg : ∀ r2, decConfig (encConfig config ++ r2) = some (config, r2) :=
      fun r2 => decConfig_encConfig config r2 hc
    have hlst : ∀ r2, decList decDevice (encList encDevice devices ++ r2)
        = some (devices, r2) :=
      fun r2 => decList_encList _ _ _ _ hlen
        (fun a ha r3 => decDevice_encDevice a r3 (hdev a ha))
    simp only [encServerMsg, List.append_assoc]
    simp only [decServerMsg, Option.bind_eq_bind]
    rw [decNat_encNat 4 0 _ (by norm_num)]
    simp [hcfg, hlst]
  | Logging w =>
    obtain ⟨hlo, hhi⟩ := h
    simp only [encServerMsg, List.append_assoc]
    simp only [decServerMsg, Option.bind_eq_bind]
    rw [decNat_encNat 4 1 _ (by norm_num)]
    simp [decInt_encInt w r hlo hhi]
  | Exit =>
    simp only [encServerMsg, decServerMsg, Option.bind_eq_bind]
    rw [decNat_encNat 4 2 _ (by norm_num)]
    rfl

lemma decClientMsg_enc (m : ClientMsg) (r : List Nat) (h : m.WF) :
    decClientMsg (encClientMsg m ++ r) = some (m, r) := by
  cases m with
  | DeviceInstall dev res =>
    obtain ⟨hd, hr⟩ := h
    have hdev : ∀ r2, decDevice (encDevice dev ++ r2) = some (dev, r2) :=
      fun r2 => decDevice_encDevice dev r2 hd
    have hres : ∀ r2, decResult (encResult res ++ r2) = some (res, r2) :=
      fun r2 => decResult_encResult res r2 hr
    simp only [encClientMsg, List.append_assoc]
    simp only [decClientMsg, Option.bind_eq_bind]
    rw [decNat_encNat 4 0 _ (by norm_num)]
    simp [hdev, hres]
  | Error e =>
    simp only [encClientMsg, List.append_assoc]
    simp only [decClientMsg, Option.bind_eq_bind]
    rw [decNat_encNat 4 1 _ (by norm_num)]
    simp [decString_encString e r h]
  | InstallStarted =>
    simp only [encClientMsg, decClientMsg, Option.bind_eq_bind]
    rw [decNat_encNat 4 2 _ (by norm_num)]
    rfl
  | InstallDone =>
    simp only [encClientMsg, decClientMsg, Option.bind_eq_bind]
    rw [decNat_encNat 4 3 _ (by norm_num)]
    rfl
  | Heatbeat =>
    simp only [encClientMsg, decClientMsg, Option.bind_eq_bind]
    rw [decNat_encNat 4 4 _ (by norm_num)]
    rfl

lemma decFrame_encFrame (p r : List Nat) (h : p.length < 2 ^ 32) :
    decFrame (encFrame p ++ r) = some (p, r) := by
  have hrev : (encNat 4 p.length).reverse
      = [p.length / 256 / 256 / 256 % 256, p.length / 256 / 256 % 256,
         p.length / 256 % 256, p.length % 256] := rfl
  show decFrame ((encNat 4 p.length).reverse ++ p ++ r) = some (p, r)
  rw [hrev, List.append_assoc]
  show decTokens
    (p.length % 256 + 256 * (p.length / 256 % 256
      + 256 * (p.length / 256 / 256 % 256 + 256 * (p.length / 256 / 256 / 256 % 256))))
    (p ++ r) = some (p, r)
  have hlen2 : p.length < 4294967296 := by norm_num at h; exact h
  have hrecomb : p.length % 256 + 256 * (p.length / 256 % 256
      + 256 * (p.length / 256 / 256 % 256 + 256 * (p.length / 256 / 256 / 256 % 256)))
      = p.length := by omega
  rw [hrecomb, decTokens_self]

/-! ## Claim C9 (confirmed) -/

/-- C9: for every wellformed value of every variant of both message
vocabularies, encoding it with the wire codec (bincode-style payload inside
one length-delimited frame) and decoding the resulting frame yields the
original value.  Wellformedness is the Rust types' own ranges (`u16`
device ids, `NonZeroU8`/`NonZeroU64` options, `u64` string/vector length
prefixes, `isize` window handle) plus the `u32` frame-length bound. -/
theorem c9_codec_roundtrip {sm : ServerMsg} {cm : ClientMsg}
    (h1 : sm.WF) (h2 : cm.WF)
    (h3 : (encServerMsg sm).length < 2 ^ 32)
    (h4 : (encClientMsg cm).length < 2 ^ 32) :
    decodeServerFrame (encodeServerFrame sm) = some sm
      ∧ decodeClientFrame (encodeClientFrame cm) = some cm := by
  constructor
  · rw [encodeServerFrame, decodeServerFrame]
    have hfr := decFrame_encFrame (encServerMsg sm) [] h3
    rw [List.append_nil] at hfr
    have hmsg := decServerMsg_enc sm [] h1
    rw [List.append_nil] at hmsg
    rw [hfr]
    simp [hmsg]
  · rw [encodeClientFrame, decodeClientFrame]
    have hfr := decFrame_encFrame (encClientMsg cm) [] h4
    rw [List.append_nil] at hfr
    have hmsg := decClientMsg_enc cm [] h2
    rw [List.append_nil] at hmsg
    rw [hfr]
    simp [hmsg]

/-- C9 witness: an install request with one device, and an `Err` device
result, both survive the round trip. -/
theorem c9_codec_roundtrip_witness :
    decodeServerFrame (encodeServerFrame (.Install cfg0 [dev0]))
        = some (.Install cfg0 [dev0])
      ∧ decodeClientFrame (encodeClientFrame (.DeviceInstall dev1 (.error "x")))
        = some (.DeviceInstall dev1 (.error "x")) :=
  c9_codec_roundtrip (by decide) (by decide) (by decide) (by decide)

end WUSB
